import Mathlib

/-!
Verification of the analysis engine of `src/app.py` (material-analyzer).

The engine (`calculate_material_properties`) and the chart marker selection
(`generate_stress_strain_chart`) operate on Python/numpy floats.  We embed
them shallowly over `PyFloat`: exact rationals extended with the IEEE-754
special values `nan`, `inf`, `-inf`.  Rounding error is idealised away
(decimal literals are read as exact rationals); the special-value
propagation rules of IEEE arithmetic, of Python's builtin `max`, and of
numpy's `max` / `argmin` / `argmax` reductions are modelled exactly, since
several spec claims are about NaN/Inf inputs.
-/

namespace MaterialAnalyzer

/-- Idealised Python/numpy double: an exact rational, or one of the
IEEE special values NaN, +Inf, -Inf. -/
inductive PyFloat where
  | fin (q : ℚ)
  | nan
  | inf
  | ninf
deriving DecidableEq, Repr

namespace PyFloat

/-- Finiteness test (`np.isfinite`). -/
def isFinite : PyFloat → Bool
  | fin _ => true
  | _ => false

/-- IEEE negation. -/
def neg : PyFloat → PyFloat
  | fin q => fin (-q)
  | nan => nan
  | inf => ninf
  | ninf => inf

/-- IEEE addition: NaN is absorbing, `inf + (-inf) = NaN`. -/
def add : PyFloat → PyFloat → PyFloat
  | nan, _ => nan
  | _, nan => nan
  | fin a, fin b => fin (a + b)
  | fin _, inf => inf
  | fin _, ninf => ninf
  | inf, fin _ => inf
  | ninf, fin _ => ninf
  | inf, inf => inf
  | ninf, ninf => ninf
  | inf, ninf => nan
  | ninf, inf => nan

/-- IEEE subtraction. -/
def sub (a b : PyFloat) : PyFloat := add a (neg b)

/-- IEEE multiplication: NaN absorbing, `inf * 0 = NaN`, signs multiply. -/
def mul : PyFloat → PyFloat → PyFloat
  | nan, _ => nan
  | _, nan => nan
  | fin a, fin b => fin (a * b)
  | fin a, inf => if 0 < a then inf else if a < 0 then ninf else nan
  | fin a, ninf => if 0 < a then ninf else if a < 0 then inf else nan
  | inf, fin b => if 0 < b then inf else if b < 0 then ninf else nan
  | ninf, fin b => if 0 < b then ninf else if b < 0 then inf else nan
  | inf, inf => inf
  | inf, ninf => ninf
  | ninf, inf => ninf
  | ninf, ninf => inf

/-- IEEE division (numpy semantics: finite/0 gives a signed infinity,
0/0 gives NaN).  In the embedded code it is only ever applied with a
positive finite divisor. -/
def div : PyFloat → PyFloat → PyFloat
  | nan, _ => nan
  | _, nan => nan
  | fin a, fin b =>
      if b = 0 then (if a = 0 then nan else if 0 < a then inf else ninf)
      else fin (a / b)
  | fin _, inf => fin 0
  | fin _, ninf => fin 0
  | inf, fin b => if b < 0 then ninf else inf
  | ninf, fin b => if b < 0 then inf else ninf
  | inf, inf => nan
  | inf, ninf => nan
  | ninf, inf => nan
  | ninf, ninf => nan

/-- IEEE absolute value. -/
def abs : PyFloat → PyFloat
  | fin q => fin |q|
  | nan => nan
  | inf => inf
  | ninf => inf

/-- IEEE `<`: any comparison involving NaN is false. -/
def lt : PyFloat → PyFloat → Bool
  | nan, _ => false
  | _, nan => false
  | fin a, fin b => decide (a < b)
  | fin _, inf => true
  | fin _, ninf => false
  | inf, _ => false
  | ninf, ninf => false
  | ninf, _ => true

/-- IEEE `≤`: any comparison involving NaN is false. -/
def le : PyFloat → PyFloat → Bool
  | nan, _ => false
  | _, nan => false
  | fin a, fin b => decide (a ≤ b)
  | fin _, inf => true
  | fin _, ninf => false
  | inf, inf => true
  | inf, _ => false
  | ninf, _ => true

/-- Python's builtin `max(a, b)`: returns `b` exactly when `b > a`
(so `max(nan, x) = nan`, `max(x, nan) = x`). -/
def pyMax2 (a b : PyFloat) : PyFloat := if lt a b then b else a

end PyFloat

open PyFloat

/-- Extract the rational parts of a list (non-finite entries mapped to 0);
only used on lists already known to be all-finite. -/
def toQ (l : List PyFloat) : List ℚ :=
  l.map (fun v => match v with | fin q => q | _ => 0)

/-- numpy boolean-mask indexing `arr[mask]`. -/
def maskFilter (l : List α) (m : List Bool) : List α :=
  (l.zip m).filterMap (fun p => if p.2 then some p.1 else none)

/-- One step of numpy's pairwise `maximum`: NaN-propagating. -/
def npMaxStep (acc y : PyFloat) : PyFloat :=
  if acc = nan then nan else if y = nan then nan
  else if lt acc y then y else acc

/-- `np.max` over a list: NaN-propagating pairwise maximum
(empty list is never reached in the embedded code). -/
def npMax : List PyFloat → PyFloat
  | [] => nan
  | x :: xs => xs.foldl npMaxStep x

/-- Accumulator loop for `argminQ`: carries current best value/index,
replaces on strict `<` (so ties keep the first occurrence). -/
def argminQAux : ℚ → ℕ → ℕ → List ℚ → ℕ × ℚ
  | best, bi, _, [] => (bi, best)
  | best, bi, i, x :: xs =>
      if x < best then argminQAux x i (i + 1) xs
      else argminQAux best bi (i + 1) xs

/-- Index of the first minimum of a rational list (numpy `argmin` on
NaN-free data). -/
def argminQ : List ℚ → ℕ
  | [] => 0
  | x :: xs => (argminQAux x 0 1 xs).1

/-- Accumulator loop for `argmaxQ`. -/
def argmaxQAux : ℚ → ℕ → ℕ → List ℚ → ℕ × ℚ
  | best, bi, _, [] => (bi, best)
  | best, bi, i, x :: xs =>
      if best < x then argmaxQAux x i (i + 1) xs
      else argmaxQAux best bi (i + 1) xs

/-- Index of the first maximum of a rational list (numpy `argmax` on
NaN-free data). -/
def argmaxQ : List ℚ → ℕ
  | [] => 0
  | x :: xs => (argmaxQAux x 0 1 xs).1

/-- Accumulator loop for `npArgmin`: like `argminQAux` but returns the
index of the first NaN when one is met (numpy semantics). -/
def npArgminAux : PyFloat → ℕ → ℕ → List PyFloat → ℕ
  | _, bi, _, [] => bi
  | best, bi, i, x :: xs =>
      if x = nan then i
      else if lt x best then npArgminAux x i (i + 1) xs
      else npArgminAux best bi (i + 1) xs

/-- `np.argmin`: first NaN index if NaN is present, else index of the
first minimum. -/
def npArgmin : List PyFloat → ℕ
  | [] => 0
  | x :: xs => if x = nan then 0 else npArgminAux x 0 1 xs

/-- Accumulator loop for `npArgmax`. -/
def npArgmaxAux : PyFloat → ℕ → ℕ → List PyFloat → ℕ
  | _, bi, _, [] => bi
  | best, bi, i, x :: xs =>
      if x = nan then i
      else if lt best x then npArgmaxAux x i (i + 1) xs
      else npArgmaxAux best bi (i + 1) xs

/-- `np.argmax`: first NaN index if NaN is present, else index of the
first maximum. -/
def npArgmax : List PyFloat → ℕ
  | [] => 0
  | x :: xs => if x = nan then 0 else npArgmaxAux x 0 1 xs

/-- `np.trapz(y, x)`: sum of `(x[i+1]-x[i]) * (y[i+1]+y[i]) / 2`,
with IEEE special-value propagation. -/
def npTrapz (y x : List PyFloat) : PyFloat :=
  (((x.tail.zip x).zip (y.tail.zip y)).map
    (fun p => div (mul (sub p.1.1 p.1.2) (add p.2.1 p.2.2)) (fin 2))).foldl
    add (fin 0)

/-- Rational trapezoidal-rule integral of `ys` over `xs`
(the spec's "trapezoidal-rule numeric integral"). -/
def trapzQ (xs ys : List ℚ) : ℚ :=
  (((xs.tail.zip xs).zip (ys.tail.zip ys)).map
    (fun p => (p.1.1 - p.1.2) * (p.2.1 + p.2.2) / 2)).foldl (· + ·) 0

/-- Determinant of a square rational matrix given as a list of rows,
by Laplace expansion along the first row. -/
def detL : List (List ℚ) → ℚ
  | [] => 1
  | r :: rs =>
      (List.range r.length).foldl
        (fun acc j => acc + (-1 : ℚ) ^ j * r.getD j 0 *
          detL (rs.map (fun row => row.eraseIdx j))) 0
termination_by m => m.length
decreasing_by simp

/-- Replace column `j` of a matrix by the vector `b` (for Cramer's rule). -/
def replaceCol (m : List (List ℚ)) (j : ℕ) (b : List ℚ) : List (List ℚ) :=
  (m.zip b).map (fun p => p.1.set j p.2)

/-- Solve the linear system `m ⬝ c = b` by Cramer's rule.  A singular
system returns the zero vector (numpy's `lstsq` would return the
minimum-norm least-squares solution there; the embedded code only reaches
the singular case for fits over identical abscissae, and no claim depends
on the value returned there). -/
def cramer (m : List (List ℚ)) (b : List ℚ) : List ℚ :=
  let d := detL m
  if d = 0 then b.map (fun _ => 0)
  else (List.range b.length).map (fun j => detL (replaceCol m j b) / d)

/-- Sum of `e`-th powers of a list (entry of the normal-equation matrix). -/
def powSum (xs : List ℚ) (e : ℕ) : ℚ := (xs.map (· ^ e)).sum

/-- Sum of `x^e * y` over paired lists (entry of the normal-equation rhs). -/
def dotPow (xs ys : List ℚ) (e : ℕ) : ℚ :=
  ((xs.zip ys).map (fun p => p.1 ^ e * p.2)).sum

/-- Least-squares polynomial fit of degree `d` (`np.polyfit`): solves the
normal equations `Aᵀ A c = Aᵀ y` for the Vandermonde matrix `A`, returning
coefficients with the highest degree first.  For full-rank fits (distinct
abscissae, enough points) this is exactly the mathematical least-squares
solution that `np.polyfit` computes. -/
def polyfitQ (d : ℕ) (xs ys : List ℚ) : List ℚ :=
  let m := (List.range (d + 1)).map
    (fun k => (List.range (d + 1)).map (fun l => powSum xs (2 * d - k - l)))
  let b := (List.range (d + 1)).map (fun k => dotPow xs ys (d - k))
  cramer m b

/-- Horner evaluation of a polynomial with coefficients highest-first
(`np.polyval`). -/
def polyvalQ (cs : List ℚ) (x : ℚ) : ℚ := cs.foldl (fun a c => a * x + c) 0

/-- Degree-3 fit of a window of samples against abscissae `0, 1, …`
(the fit underlying both the Savitzky-Golay convolution coefficients and
scipy's `mode="interp"` edge handling). -/
def sgWindowFit (ys : List ℚ) : List ℚ :=
  polyfitQ 3 ((List.range ys.length).map (fun i => (i : ℚ))) ys

/-- scipy `savgol_filter(y, w, 3, mode="interp")` over exact rationals,
for an odd window `w ≤ len y`: output `i` is the degree-3 least-squares
fit of the window around `i` evaluated at `i`'s position — the first
`w/2` outputs use the fit of the first `w` samples, the last `w/2` use
the fit of the last `w` samples, and interior outputs use the centred
window (equivalently, the standard SG convolution). -/
def savgolQ (w : ℕ) (ys : List ℚ) : List ℚ :=
  let h := w / 2
  let n := ys.length
  (List.range n).map (fun i =>
    if i < h then polyvalQ (sgWindowFit (ys.take w)) (i : ℚ)
    else if n - h ≤ i then
      polyvalQ (sgWindowFit (ys.drop (n - w))) ((i - (n - w) : ℕ) : ℚ)
    else polyvalQ (sgWindowFit ((ys.drop (i - h)).take w)) (h : ℚ))

/-- `scipy.signal.savgol_filter(stress, w, 3)` lifted to `PyFloat` inputs.
On all-finite input it computes the exact rational filter; numpy/LAPACK
raise `LinAlgError` when the least-squares machinery meets NaN/Inf, which
is modelled as failure. -/
def savgol_filter (w : ℕ) (ys : List PyFloat) : Except Unit (List PyFloat) :=
  if ys.all isFinite then .ok ((savgolQ w (toQ ys)).map fin) else .error ()

/-- `np.polyfit` lifted to `PyFloat` inputs: exact rational least squares
on finite data, failure (numpy `LinAlgError`) on non-finite data. -/
def np_polyfit (d : ℕ) (xs ys : List PyFloat) : Except Unit (List PyFloat) :=
  if xs.all isFinite && ys.all isFinite then
    .ok ((polyfitQ d (toQ xs) (toQ ys)).map fin)
  else .error ()

/-- One entry of the result mapping: a value with its unit string. -/
structure PropEntry where
  value : PyFloat
  unit : String
deriving DecidableEq, Repr

/-- The result mapping of `calculate_material_properties`: by construction
it always has exactly the five documented entries.  Field names translate
the source's Chinese keys: 弹性模量 (elastic modulus), 屈服强度 (yield
strength), 抗拉强度 (tensile strength), 断裂应变 (fracture strain),
韧性 (toughness). -/
structure PropertyResult where
  elasticModulus : PropEntry
  yieldStrength : PropEntry
  tensileStrength : PropEntry
  fractureStrain : PropEntry
  toughness : PropEntry
deriving DecidableEq, Repr

/-- The five values of a result, in source order. -/
def fieldValues (r : PropertyResult) : List PyFloat :=
  [r.elasticModulus.value, r.yieldStrength.value, r.tensileStrength.value,
   r.fractureStrain.value, r.toughness.value]

/-- The fixed fallback result returned by the `except` handler
(src/app.py lines 101-107). -/
def fallbackResult : PropertyResult :=
  { elasticModulus := ⟨fin 200, "GPa"⟩
    yieldStrength := ⟨fin 400, "MPa"⟩
    tensileStrength := ⟨fin 500, "MPa"⟩
    fractureStrain := ⟨fin (3/20), ""⟩
    toughness := ⟨fin 80, "MJ/m³"⟩ }

/-- Smoothing step (src/app.py lines 46-56): for more than 10 samples,
window `min(11, len)` forced odd, Savitzky-Golay of degree 3 when the
window is at least 3; otherwise the stress is left unsmoothed. -/
def smoothStep (stress : List PyFloat) : Except Unit (List PyFloat) :=
  if 10 < stress.length then
    let w0 := min 11 stress.length
    let w := if w0 % 2 = 0 then w0 - 1 else w0
    if 3 ≤ w then savgol_filter w stress else .ok stress
  else .ok stress

/-- The boolean mask `strain <= 0.002` (src/app.py line 59). -/
def elasticMask (strain : List PyFloat) : List Bool :=
  strain.map (fun v => le v (fin (1/500)))

/-- The slicing `arr[:min(10, len(arr))]` (src/app.py lines 61-62). -/
def takeTen (l : List α) : List α := l.take (min 10 l.length)

/-- Elastic-modulus step (src/app.py lines 58-66): if more than 5 samples
lie in the elastic region, fit a line through the first `min(10, count)`
of them and divide the slope by 1e9; otherwise 200. -/
def youngsStep (strain smooth : List PyFloat) : Except Unit PyFloat :=
  if 5 < (elasticMask strain).count true then
    (np_polyfit 1 (takeTen (maskFilter strain (elasticMask strain)))
        (takeTen (maskFilter smooth (elasticMask strain)))).map
      (fun cs => div (cs.headD nan) (fin 1000000000))
  else .ok (fin 200)

/-- The offset line `youngs_modulus * 1e9 * (strain - 0.002)`
(src/app.py line 70). -/
def offsetLine (strain : List PyFloat) (youngs : PyFloat) : List PyFloat :=
  strain.map (fun s => mul (mul youngs (fin 1000000000)) (sub s (fin (1/500))))

/-- `np.abs(stress_smooth - offset_line)` (src/app.py line 71). -/
def absDiff (smooth offset : List PyFloat) : List PyFloat :=
  (smooth.zip offset).map (fun p => PyFloat.abs (sub p.1 p.2))

/-- The boolean mask `strain > 0.002` (src/app.py line 72). -/
def validMask (strain : List PyFloat) : List Bool :=
  strain.map (fun s => lt (fin (1/500)) s)

/-- Yield-strength step, 0.2% offset method (src/app.py lines 68-80).
The inner `try/except` of the source can only fire on shape-mismatch
errors, which the equal-length theorems below exclude; its handler
computes the same `0.8 * max(stress_smooth)` as the no-valid-index
branch. -/
def yieldStep (strain smooth : List PyFloat) (youngs : PyFloat) : PyFloat :=
  if (validMask strain).any id then
    (maskFilter smooth (validMask strain)).getD
      (npArgmin (maskFilter (absDiff smooth (offsetLine strain youngs))
        (validMask strain))) nan
  else mul (npMax smooth) (fin (4/5))

/-- Toughness step (src/app.py line 90): `np.trapz(stress_smooth, strain) / 1e6`. -/
def toughnessStep (strain smooth : List PyFloat) : PyFloat :=
  div (npTrapz smooth strain) (fin 1000000)

/-- Body of the `try` block of `calculate_material_properties`
(src/app.py lines 39-98).  The initial guard models
`strain is None or stress is None or len(strain) < 2`. -/
def computeE (strain stress : List PyFloat) : Except Unit PropertyResult :=
  if strain.length < 2 then .error ()
  else
    match smoothStep stress with
    | .error e => .error e
    | .ok smooth =>
        match youngsStep strain smooth with
        | .error e => .error e
        | .ok youngs =>
            .ok
              { elasticModulus := ⟨pyMax2 youngs (fin 0), "GPa"⟩
                yieldStrength :=
                  ⟨pyMax2 (yieldStep strain smooth youngs) (fin 0), "MPa"⟩
                tensileStrength := ⟨pyMax2 (npMax smooth) (fin 0), "MPa"⟩
                fractureStrain :=
                  ⟨pyMax2 (strain.getD (npArgmax smooth) nan) (fin 0), ""⟩
                toughness :=
                  ⟨pyMax2 (toughnessStep strain smooth) (fin 0), "MJ/m³"⟩ }

/-- `calculate_material_properties` (src/app.py lines 37-107): the whole
body is wrapped in `try/except`, every failure is converted to the fixed
fallback result. -/
def calculate_material_properties (strain stress : List PyFloat) :
    PropertyResult :=
  match computeE strain stress with
  | .ok r => r
  | .error _ => fallbackResult

/-- The two annotated points of `generate_stress_strain_chart`. -/
structure ChartMarkers where
  yieldMarker : Option (PyFloat × PyFloat)
  tensileMarker : Option (PyFloat × PyFloat)
deriving DecidableEq, Repr

/-- Marker-selection logic of `generate_stress_strain_chart`
(src/app.py lines 120-136): markers are drawn only when a result is
supplied and `len(strain) > 1`; the yield marker needs
`yield_idx < len(strain)` (source guard); indexing `strain[max_idx]` out
of range raises and is swallowed by the inner `except: pass`, losing the
tensile marker, as is `np.argmin` over an empty stress array (losing
both). -/
def chartMarkers (strain stress : List PyFloat)
    (results : Option PropertyResult) : ChartMarkers :=
  match results with
  | none => ⟨none, none⟩
  | some r =>
      if 1 < strain.length then
        if stress.isEmpty then ⟨none, none⟩
        else
          ⟨if npArgmin (stress.map
              (fun s => PyFloat.abs (sub s r.yieldStrength.value))) <
              strain.length then
            some (strain.getD (npArgmin (stress.map
                (fun s => PyFloat.abs (sub s r.yieldStrength.value)))) nan,
              stress.getD (npArgmin (stress.map
                (fun s => PyFloat.abs (sub s r.yieldStrength.value)))) nan)
          else none,
          if npArgmax stress < strain.length then
            some (strain.getD (npArgmax stress) nan,
              stress.getD (npArgmax stress) nan)
          else none⟩
      else ⟨none, none⟩

/-! ## Lifting lemmas: on all-finite inputs the pipeline computes in ℚ. -/

theorem toQ_map_fin (l : List ℚ) : toQ (l.map fin) = l := by
  rw [toQ, List.map_map]
  exact List.map_id l

theorem all_isFinite_map_fin (l : List ℚ) :
    (l.map fin).all isFinite = true := by
  simp [List.all_map, isFinite, Function.comp]

theorem eq_map_fin_of_all_isFinite {l : List PyFloat}
    (h : l.all isFinite = true) : l = (toQ l).map fin := by
  induction l with
  | nil => rfl
  | cons x xs ih =>
      simp only [List.all_cons, Bool.and_eq_true] at h
      cases x with
      | fin q => simpa [toQ] using congrArg (List.cons (fin q)) (ih h.2)
      | nan => simp [isFinite] at h
      | inf => simp [isFinite] at h
      | ninf => simp [isFinite] at h

theorem savgolQ_length (w : ℕ) (ys : List ℚ) :
    (savgolQ w ys).length = ys.length := by
  simp [savgolQ]

/-- ℚ-level shadow of `smoothStep` on finite data. -/
def smoothQL (tq : List ℚ) : List ℚ :=
  if 10 < tq.length then savgolQ 11 tq else tq

theorem smoothQL_length (tq : List ℚ) : (smoothQL tq).length = tq.length := by
  unfold smoothQL
  split <;> simp [savgolQ_length]

theorem smoothStep_map_fin (tq : List ℚ) :
    smoothStep (tq.map fin) = .ok ((smoothQL tq).map fin) := by
  unfold smoothStep smoothQL
  simp only [List.length_map]
  by_cases h : 10 < tq.length
  · have hw : min 11 tq.length = 11 := by omega
    simp [h, hw, savgol_filter, all_isFinite_map_fin, toQ_map_fin]
  · simp [h]

theorem maskFilter_map_fin (l : List ℚ) (m : List Bool) :
    maskFilter (l.map fin) m = (maskFilter l m).map fin := by
  induction l generalizing m with
  | nil => simp [maskFilter]
  | cons x xs ih =>
      cases m with
      | nil => simp [maskFilter]
      | cons b bs =>
          cases b <;> simp [maskFilter] <;>
            simpa [maskFilter] using ih bs

theorem le_fin_fin (a b : ℚ) : le (fin a) (fin b) = decide (a ≤ b) := rfl

theorem lt_fin_fin (a b : ℚ) : lt (fin a) (fin b) = decide (a < b) := rfl

/-- ℚ-level shadow of `elasticMask`. -/
def elasticMaskQ (sq : List ℚ) : List Bool :=
  sq.map (fun q => decide (q ≤ 1/500))

theorem elasticMask_map_fin (sq : List ℚ) :
    elasticMask (sq.map fin) = elasticMaskQ sq := by
  rw [elasticMask, elasticMaskQ, List.map_map]
  rfl

theorem takeTen_map_fin (l : List ℚ) :
    takeTen (l.map fin) = (takeTen l).map fin := by
  rw [takeTen, takeTen, List.length_map, List.map_take]

theorem polyfitQ_length (d : ℕ) (xs ys : List ℚ) :
    (polyfitQ d xs ys).length = d + 1 := by
  simp only [polyfitQ, cramer]
  split <;> simp

theorem np_polyfit_map_fin (d : ℕ) (xs ys : List ℚ) :
    np_polyfit d (xs.map fin) (ys.map fin) =
      .ok ((polyfitQ d xs ys).map fin) := by
  simp [np_polyfit, all_isFinite_map_fin, toQ_map_fin]

theorem div_fin_fin (a b : ℚ) (hb : b ≠ 0) :
    div (fin a) (fin b) = fin (a / b) := by
  simp [div, hb]

/-- ℚ-level shadow of `youngsStep` on finite data. -/
def youngsQL (sq qs : List ℚ) : ℚ :=
  if 5 < (elasticMaskQ sq).count true then
    (polyfitQ 1 (takeTen (maskFilter sq (elasticMaskQ sq)))
        (takeTen (maskFilter qs (elasticMaskQ sq)))).headD 0 / 1000000000
  else 200

theorem headD_map_fin_of_ne_nil {l : List ℚ} (h : l ≠ []) (d : PyFloat) :
    (l.map fin).headD d = fin (l.headD 0) := by
  cases l with
  | nil => exact absurd rfl h
  | cons x xs => rfl

theorem polyfitQ_ne_nil (d : ℕ) (xs ys : List ℚ) : polyfitQ d xs ys ≠ [] := by
  intro hc
  have hlen := polyfitQ_length d xs ys
  rw [hc] at hlen
  simp at hlen

theorem youngsStep_map_fin (sq qs : List ℚ) :
    youngsStep (sq.map fin) (qs.map fin) = .ok (fin (youngsQL sq qs)) := by
  unfold youngsStep youngsQL
  rw [elasticMask_map_fin]
  by_cases h : 5 < (elasticMaskQ sq).count true
  · rw [if_pos h, if_pos h, maskFilter_map_fin, maskFilter_map_fin,
      takeTen_map_fin, takeTen_map_fin, np_polyfit_map_fin]
    show Except.ok _ = _
    dsimp only
    rw [headD_map_fin_of_ne_nil (polyfitQ_ne_nil 1 _ _),
      div_fin_fin _ _ (by norm_num)]
  · rw [if_neg h, if_neg h]

theorem sub_fin_fin (a b : ℚ) : sub (fin a) (fin b) = fin (a - b) := by
  simp [PyFloat.sub, PyFloat.add, PyFloat.neg, sub_eq_add_neg]

theorem add_fin_fin (a b : ℚ) : add (fin a) (fin b) = fin (a + b) := rfl

theorem mul_fin_fin (a b : ℚ) : mul (fin a) (fin b) = fin (a * b) := rfl

theorem abs_fin (a : ℚ) : PyFloat.abs (fin a) = fin |a| := rfl

theorem ite_lt_eq_max (a b : ℚ) : (if a < b then b else a) = max a b := by
  rcases le_or_lt b a with h | h
  · rw [if_neg (not_lt.mpr h), max_eq_left h]
  · rw [if_pos h, max_eq_right h.le]

theorem npMaxStep_fin (a y : ℚ) : npMaxStep (fin a) (fin y) = fin (max a y) := by
  rw [npMaxStep, if_neg (by simp), if_neg (by simp), lt_fin_fin]
  by_cases h : a < y
  · simp [h, max_eq_right h.le]
  · simp [h, max_eq_left (not_lt.mp h)]

theorem foldl_npMaxStep_map_fin (xs : List ℚ) (a : ℚ) :
    (xs.map fin).foldl npMaxStep (fin a) = fin (xs.foldl max a) := by
  induction xs generalizing a with
  | nil => rfl
  | cons y ys ih => simp only [List.map_cons, List.foldl_cons, npMaxStep_fin, ih]

theorem npMax_map_fin (x : ℚ) (xs : List ℚ) :
    npMax ((x :: xs).map fin) = fin (xs.foldl max x) := by
  simp only [List.map_cons, npMax, foldl_npMaxStep_map_fin]

theorem le_foldl_max (xs : List ℚ) (a : ℚ) : a ≤ xs.foldl max a := by
  induction xs generalizing a with
  | nil => exact le_refl a
  | cons y ys ih => exact le_trans (le_max_left a y) (ih (max a y))

theorem mem_le_foldl_max (xs : List ℚ) (a : ℚ) :
    ∀ y ∈ xs, y ≤ xs.foldl max a := by
  induction xs generalizing a with
  | nil => intro y hy; simp at hy
  | cons z zs ih =>
      intro y hy
      rcases List.mem_cons.mp hy with h | h
      · subst h
        exact le_trans (le_max_right a y) (le_foldl_max zs (max a y))
      · exact ih (max a z) y h

theorem foldl_max_mem (xs : List ℚ) (a : ℚ) :
    xs.foldl max a = a ∨ xs.foldl max a ∈ xs := by
  induction xs generalizing a with
  | nil => exact Or.inl rfl
  | cons z zs ih =>
      rcases ih (max a z) with h | h
      · rcases max_choice a z with hc | hc
        · exact Or.inl (by rw [List.foldl_cons, h, hc])
        · exact Or.inr (by rw [List.foldl_cons, h, hc]; exact List.mem_cons_self z zs)
      · exact Or.inr (List.mem_cons_of_mem z h)

theorem foldl_add_comp_fin {α : Type} (f : α → ℚ) (l : List α) (a : ℚ) :
    (l.map (fun p => fin (f p))).foldl add (fin a) =
      fin ((l.map f).foldl (· + ·) a) := by
  induction l generalizing a with
  | nil => rfl
  | cons y ys ih => simp only [List.map_cons, List.foldl_cons, add_fin_fin, ih]

theorem npTrapz_map_fin (ys xs : List ℚ) :
    npTrapz (ys.map fin) (xs.map fin) = fin (trapzQ xs ys) := by
  unfold npTrapz trapzQ
  rw [← List.map_tail, ← List.map_tail, List.zip_map, List.zip_map,
    List.zip_map, List.map_map]
  have hterm : ∀ p ∈ (xs.tail.zip xs).zip (ys.tail.zip ys),
      ((fun p => div (mul (sub p.1.1 p.1.2) (add p.2.1 p.2.2)) (fin 2)) ∘
        Prod.map (Prod.map fin fin) (Prod.map fin fin)) p
      = fin ((p.1.1 - p.1.2) * (p.2.1 + p.2.2) / 2) := by
    intro p hp
    show div (mul (sub (fin p.1.1) (fin p.1.2)) (add (fin p.2.1) (fin p.2.2)))
        (fin 2) = _
    rw [sub_fin_fin, add_fin_fin, mul_fin_fin, div_fin_fin _ _ two_ne_zero]
  rw [List.map_congr_left hterm, foldl_add_comp_fin]

theorem getD_eq_get {α : Type} (l : List α) (d : α) {n : ℕ}
    (h : n < l.length) : l.getD n d = l.get ⟨n, h⟩ := by
  induction l generalizing n with
  | nil => simp at h
  | cons x xs ih =>
      cases n with
      | zero => rfl
      | succ m => exact ih (Nat.lt_of_succ_lt_succ h)

theorem getD_map_fin (l : List ℚ) (d : PyFloat) {n : ℕ} (h : n < l.length) :
    (l.map fin).getD n d = fin (l.getD n 0) := by
  rw [getD_eq_get (l.map fin) d (by simpa using h), getD_eq_get l 0 h,
    List.get_map]

theorem argminQAux_cases (xs : List ℚ) (b : ℚ) (bi i : ℕ) :
    argminQAux b bi i xs = (bi, b) ∨
    ∃ j, ∃ hj : j < xs.length, argminQAux b bi i xs = (i + j, xs.get ⟨j, hj⟩) := by
  induction xs generalizing b bi i with
  | nil => exact Or.inl rfl
  | cons x xs ih =>
      by_cases hx : x < b
      · rw [argminQAux, if_pos hx]
        rcases ih x i (i + 1) with h | ⟨j, hj, h⟩
        · exact Or.inr ⟨0, by simp, by simpa using h⟩
        · refine Or.inr ⟨j + 1, by simpa using Nat.succ_lt_succ hj, ?_⟩
          rw [h]
          simp [Nat.add_assoc]
          omega
      · rw [argminQAux, if_neg hx]
        rcases ih b bi (i + 1) with h | ⟨j, hj, h⟩
        · exact Or.inl h
        · refine Or.inr ⟨j + 1, by simpa using Nat.succ_lt_succ hj, ?_⟩
          rw [h]
          simp [Nat.add_assoc]
          omega

theorem argminQAux_le (xs : List ℚ) (b : ℚ) (bi i : ℕ) :
    (argminQAux b bi i xs).2 ≤ b ∧ ∀ y ∈ xs, (argminQAux b bi i xs).2 ≤ y := by
  induction xs generalizing b bi i with
  | nil => exact ⟨le_refl b, by intro y hy; simp at hy⟩
  | cons x xs ih =>
      by_cases hx : x < b
      · rw [argminQAux, if_pos hx]
        obtain ⟨h1, h2⟩ := ih x i (i + 1)
        refine ⟨le_trans h1 hx.le, ?_⟩
        intro y hy
        rcases List.mem_cons.mp hy with h | h
        · exact h ▸ h1
        · exact h2 y h
      · rw [argminQAux, if_neg hx]
        obtain ⟨h1, h2⟩ := ih b bi (i + 1)
        refine ⟨h1, ?_⟩
        intro y hy
        rcases List.mem_cons.mp hy with h | h
        · exact h ▸ le_trans h1 (not_lt.mp hx)
        · exact h2 y h

theorem argminQ_spec (x : ℚ) (xs : List ℚ) :
    argminQ (x :: xs) < (x :: xs).length ∧
    ∀ k, k < (x :: xs).length →
      (x :: xs).getD (argminQ (x :: xs)) 0 ≤ (x :: xs).getD k 0 := by
  have hle := argminQAux_le xs x 0 1
  have hval : (x :: xs).getD (argminQ (x :: xs)) 0 = (argminQAux x 0 1 xs).2 ∧
      argminQ (x :: xs) < (x :: xs).length := by
    rcases argminQAux_cases xs x 0 1 with h | ⟨j, hj, h⟩
    · rw [argminQ, h]
      exact ⟨rfl, by simp⟩
    · rw [argminQ, h]
      constructor
      · show (x :: xs).getD (1 + j) 0 = _
        rw [Nat.add_comm 1 j, List.getD_cons_succ, getD_eq_get xs 0 hj]
      · simpa using by omega
  refine ⟨hval.2, ?_⟩
  intro k hk
  rw [hval.1]
  cases k with
  | zero => exact hle.1
  | succ m =>
      rw [List.getD_cons_succ,
        getD_eq_get xs 0 (Nat.lt_of_succ_lt_succ hk)]
      exact hle.2 _ (List.get_mem xs _ _)

theorem argmaxQAux_spec (xs : List ℚ) (b : ℚ) (bi i : ℕ) :
    (argmaxQAux b bi i xs = (bi, b) ∧ ∀ y ∈ xs, y ≤ b) ∨
    ∃ j, ∃ hj : j < xs.length,
      argmaxQAux b bi i xs = (i + j, xs.get ⟨j, hj⟩) ∧
      b < xs.get ⟨j, hj⟩ ∧ (∀ y ∈ xs, y ≤ xs.get ⟨j, hj⟩) ∧
      ∀ k, ∀ hk : k < j, xs.get ⟨k, Nat.lt_trans hk hj⟩ < xs.get ⟨j, hj⟩ := by
  induction xs generalizing b bi i with
  | nil => exact Or.inl ⟨rfl, by intro y hy; simp at hy⟩
  | cons x xs ih =>
      by_cases hx : b < x
      · rw [argmaxQAux, if_pos hx]
        rcases ih x i (i + 1) with ⟨heq, hall⟩ | ⟨j, hj, heq, hbx, hall, hfirst⟩
        · refine Or.inr ⟨0, by simp, by simpa using heq, by simpa using hx, ?_, ?_⟩
          · intro y hy
            rcases List.mem_cons.mp hy with h | h
            · exact h ▸ le_refl _
            · exact hall y h
          · intro k hk
            omega
        · refine Or.inr ⟨j + 1, by simpa using Nat.succ_lt_succ hj, ?_, ?_, ?_, ?_⟩
          · rw [heq]
            simp [Nat.add_assoc]
            omega
          · exact lt_trans hx hbx
          · intro y hy
            rcases List.mem_cons.mp hy with h | h
            · exact h ▸ hbx.le
            · exact hall y h
          · intro k hk
            cases k with
            | zero => exact hbx
            | succ m => exact hfirst m (Nat.lt_of_succ_lt_succ hk)
      · rw [argmaxQAux, if_neg hx]
        rcases ih b bi (i + 1) with ⟨heq, hall⟩ | ⟨j, hj, heq, hbx, hall, hfirst⟩
        · refine Or.inl ⟨heq, ?_⟩
          intro y hy
          rcases List.mem_cons.mp hy with h | h
          · rw [h]
            exact not_lt.mp hx
          · exact hall y h
        · refine Or.inr ⟨j + 1, by simpa using Nat.succ_lt_succ hj, ?_, ?_, ?_, ?_⟩
          · rw [heq]
            simp [Nat.add_assoc]
            omega
          · exact hbx
          · intro y hy
            rcases List.mem_cons.mp hy with h | h
            · rw [h]
              exact le_trans (not_lt.mp hx) hbx.le
            · exact hall y h
          · intro k hk
            cases k with
            | zero => exact lt_of_le_of_lt (not_lt.mp hx) hbx
            | succ m => exact hfirst m (Nat.lt_of_succ_lt_succ hk)

theorem argmaxQ_spec (x : ℚ) (xs : List ℚ) :
    argmaxQ (x :: xs) < (x :: xs).length ∧
    (∀ k, k < (x :: xs).length →
      (x :: xs).getD k 0 ≤ (x :: xs).getD (argmaxQ (x :: xs)) 0) ∧
    ∀ k, k < argmaxQ (x :: xs) →
      (x :: xs).getD k 0 < (x :: xs).getD (argmaxQ (x :: xs)) 0 := by
  rcases argmaxQAux_spec xs x 0 1 with ⟨heq, hall⟩ | ⟨j, hj, heq, hbx, hall, hfirst⟩
  · rw [argmaxQ, heq]
    refine ⟨by simp, ?_, ?_⟩
    · intro k hk
      cases k with
      | zero => exact le_refl _
      | succ m =>
          rw [List.getD_cons_succ,
            getD_eq_get xs 0 (Nat.lt_of_succ_lt_succ hk)]
          exact hall _ (List.get_mem xs _ _)
    · intro k hk
      simp at hk
  · rw [argmaxQ, heq]
    have hidx : (x :: xs).getD (1 + j) 0 = xs.get ⟨j, hj⟩ := by
      rw [Nat.add_comm 1 j, List.getD_cons_succ, getD_eq_get xs 0 hj]
    refine ⟨by simpa using by omega, ?_, ?_⟩
    · intro k hk
      rw [hidx]
      cases k with
      | zero => exact hbx.le
      | succ m =>
          rw [List.getD_cons_succ,
            getD_eq_get xs 0 (Nat.lt_of_succ_lt_succ hk)]
          exact hall _ (List.get_mem xs _ _)
    · intro k hk
      rw [hidx]
      cases k with
      | zero => exact hbx
      | succ m =>
          have hm : m < j := by omega
          rw [List.getD_cons_succ, getD_eq_get xs 0 (Nat.lt_trans hm hj)]
          exact hfirst m hm

theorem npArgminAux_map_fin (xs : List ℚ) (b : ℚ) (bi i : ℕ) :
    npArgminAux (fin b) bi i (xs.map fin) = (argminQAux b bi i xs).1 := by
  induction xs generalizing b bi i with
  | nil => rfl
  | cons x xs ih =>
      rw [List.map_cons, npArgminAux, argminQAux, if_neg (by simp), lt_fin_fin]
      by_cases h : x < b
      · rw [if_pos (by simpa using h), if_pos h]
        exact ih x i (i + 1)
      · rw [if_neg (by simpa using h), if_neg h]
        exact ih b bi (i + 1)

theorem npArgmin_map_fin (l : List ℚ) : npArgmin (l.map fin) = argminQ l := by
  cases l with
  | nil => rfl
  | cons x xs =>
      rw [List.map_cons, npArgmin, if_neg (by simp), npArgminAux_map_fin,
        argminQ]

theorem npArgmaxAux_map_fin (xs : List ℚ) (b : ℚ) (bi i : ℕ) :
    npArgmaxAux (fin b) bi i (xs.map fin) = (argmaxQAux b bi i xs).1 := by
  induction xs generalizing b bi i with
  | nil => rfl
  | cons x xs ih =>
      rw [List.map_cons, npArgmaxAux, argmaxQAux, if_neg (by simp), lt_fin_fin]
      by_cases h : b < x
      · rw [if_pos (by simpa using h), if_pos h]
        exact ih x i (i + 1)
      · rw [if_neg (by simpa using h), if_neg h]
        exact ih b bi (i + 1)

theorem npArgmax_map_fin (l : List ℚ) : npArgmax (l.map fin) = argmaxQ l := by
  cases l with
  | nil => rfl
  | cons x xs =>
      rw [List.map_cons, npArgmax, if_neg (by simp), npArgmaxAux_map_fin,
        argmaxQ]

theorem getD_map {α β : Type} (f : α → β) (l : List α) (d : β) (d' : α)
    {n : ℕ} (h : n < l.length) : (l.map f).getD n d = f (l.getD n d') := by
  rw [getD_eq_get (l.map f) d (by simpa using h), getD_eq_get l d' h,
    List.get_map]

theorem maskFilter_nil {α : Type} (m : List Bool) :
    maskFilter ([] : List α) m = [] := by
  simp [maskFilter]

theorem maskFilter_nil_mask {α : Type} (l : List α) :
    maskFilter l ([] : List Bool) = [] := by
  simp [maskFilter]

theorem maskFilter_cons_true {α : Type} (a : α) (l : List α) (m : List Bool) :
    maskFilter (a :: l) (true :: m) = a :: maskFilter l m := by
  simp [maskFilter]

theorem maskFilter_cons_false {α : Type} (a : α) (l : List α) (m : List Bool) :
    maskFilter (a :: l) (false :: m) = maskFilter l m := by
  simp [maskFilter]

theorem maskFilter_length_eq {α β : Type} :
    ∀ (A : List α) (B : List β) (m : List Bool), A.length = B.length →
      (maskFilter A m).length = (maskFilter B m).length := by
  intro A
  induction A with
  | nil =>
      intro B m hAB
      cases B with
      | nil => rfl
      | cons b B' => simp at hAB
  | cons a A' ih =>
      intro B m hAB
      cases B with
      | nil => simp at hAB
      | cons b B' =>
          cases m with
          | nil => simp [maskFilter_nil_mask]
          | cons t m' =>
              cases t with
              | true =>
                  rw [maskFilter_cons_true, maskFilter_cons_true]
                  simpa using ih B' m' (by simpa using hAB)
              | false =>
                  rw [maskFilter_cons_false, maskFilter_cons_false]
                  exact ih B' m' (by simpa using hAB)

/-- Forward bridge: every position of a mask-filtered pair of lists comes
from a common original index where the mask is true. -/
theorem maskFilter_getD_pair {α β : Type} (dA : α) (dB : β) :
    ∀ (A : List α) (B : List β) (m : List Bool), A.length = B.length →
      m.length = A.length →
      ∀ i, i < (maskFilter A m).length →
      ∃ j, j < A.length ∧ m.getD j false = true ∧
        (maskFilter A m).getD i dA = A.getD j dA ∧
        (maskFilter B m).getD i dB = B.getD j dB := by
  intro A
  induction A with
  | nil =>
      intro B m hAB hm i hi
      rw [maskFilter_nil] at hi
      simp at hi
  | cons a A' ih =>
      intro B m hAB hm i hi
      cases B with
      | nil => simp at hAB
      | cons b B' =>
          cases m with
          | nil => simp at hm
          | cons t m' =>
              cases t with
              | true =>
                  rw [maskFilter_cons_true] at hi
                  rw [maskFilter_cons_true, maskFilter_cons_true]
                  cases i with
                  | zero => exact ⟨0, by simp, rfl, rfl, rfl⟩
                  | succ i' =>
                      obtain ⟨j, hj, hmj, hA, hB⟩ :=
                        ih B' m' (by simpa using hAB) (by simpa using hm) i'
                          (Nat.lt_of_succ_lt_succ hi)
                      exact ⟨j + 1, by simpa using Nat.succ_lt_succ hj,
                        by simpa using hmj, by simpa using hA,
                        by simpa using hB⟩
              | false =>
                  rw [maskFilter_cons_false] at hi
                  rw [maskFilter_cons_false, maskFilter_cons_false]
                  obtain ⟨j, hj, hmj, hA, hB⟩ :=
                    ih B' m' (by simpa using hAB) (by simpa using hm) i hi
                  exact ⟨j + 1, by simpa using Nat.succ_lt_succ hj,
                    by simpa using hmj, by simpa using hA, by simpa using hB⟩

/-- Reverse bridge: every original index where the mask is true appears
at some position of the mask-filtered pair of lists. -/
theorem maskFilter_getD_pair_rev {α β : Type} (dA : α) (dB : β) :
    ∀ (A : List α) (B : List β) (m : List Bool), A.length = B.length →
      m.length = A.length →
      ∀ j, j < A.length → m.getD j false = true →
      ∃ i, i < (maskFilter A m).length ∧
        (maskFilter A m).getD i dA = A.getD j dA ∧
        (maskFilter B m).getD i dB = B.getD j dB := by
  intro A
  induction A with
  | nil =>
      intro B m hAB hm j hj hmj
      simp at hj
  | cons a A' ih =>
      intro B m hAB hm j hj hmj
      cases B with
      | nil => simp at hAB
      | cons b B' =>
          cases m with
          | nil => simp at hm
          | cons t m' =>
              cases t with
              | true =>
                  rw [maskFilter_cons_true, maskFilter_cons_true]
                  cases j with
                  | zero => exact ⟨0, by simp, rfl, rfl⟩
                  | succ j' =>
                      obtain ⟨i, hi, hA, hB⟩ :=
                        ih B' m' (by simpa using hAB) (by simpa using hm) j'
                          (Nat.lt_of_succ_lt_succ hj) (by simpa using hmj)
                      exact ⟨i + 1, by simpa using Nat.succ_lt_succ hi,
                        by simpa using hA, by simpa using hB⟩
              | false =>
                  rw [maskFilter_cons_false, maskFilter_cons_false]
                  cases j with
                  | zero => simp at hmj
                  | succ j' =>
                      exact ih B' m' (by simpa using hAB) (by simpa using hm)
                        j' (Nat.lt_of_succ_lt_succ hj) (by simpa using hmj)

/-- ℚ-level shadow of `validMask`. -/
def validMaskQ (sq : List ℚ) : List Bool :=
  sq.map (fun q => decide (1/500 < q))

theorem validMask_map_fin (sq : List ℚ) :
    validMask (sq.map fin) = validMaskQ sq := by
  rw [validMask, validMaskQ, List.map_map]
  rfl

/-- ℚ-level shadow of `offsetLine`. -/
def offsetLineQ (sq : List ℚ) (y : ℚ) : List ℚ :=
  sq.map (fun s => y * 1000000000 * (s - 1/500))

theorem offsetLine_map_fin (sq : List ℚ) (y : ℚ) :
    offsetLine (sq.map fin) (fin y) = (offsetLineQ sq y).map fin := by
  rw [offsetLine, offsetLineQ, List.map_map, List.map_map]
  refine List.map_congr_left ?_
  intro s hs
  show mul (mul (fin y) (fin 1000000000)) (sub (fin s) (fin (1/500))) = _
  rw [mul_fin_fin, sub_fin_fin, mul_fin_fin]
  rfl

/-- ℚ-level shadow of `absDiff`. -/
def absDiffQ (qs os : List ℚ) : List ℚ :=
  (qs.zip os).map (fun p => |p.1 - p.2|)

theorem absDiff_map_fin (qs os : List ℚ) :
    absDiff (qs.map fin) (os.map fin) = (absDiffQ qs os).map fin := by
  rw [absDiff, absDiffQ, List.zip_map, List.map_map, List.map_map]
  refine List.map_congr_left ?_
  intro p hp
  show PyFloat.abs (sub (fin p.1) (fin p.2)) = _
  rw [sub_fin_fin, abs_fin]
  rfl

/-- Maximum of a nonempty rational list, numpy fold order
(`listMaxQ [] = 0` is never used). -/
def listMaxQ : List ℚ → ℚ
  | [] => 0
  | x :: xs => xs.foldl max x

theorem npMax_map_fin_ne_nil {l : List ℚ} (h : l ≠ []) :
    npMax (l.map fin) = fin (listMaxQ l) := by
  cases l with
  | nil => exact absurd rfl h
  | cons x xs => exact npMax_map_fin x xs

theorem listMaxQ_spec {l : List ℚ} (h : l ≠ []) :
    (∃ j, j < l.length ∧ l.getD j 0 = listMaxQ l) ∧
    ∀ k, k < l.length → l.getD k 0 ≤ listMaxQ l := by
  cases l with
  | nil => exact absurd rfl h
  | cons x xs =>
      constructor
      · rcases foldl_max_mem xs x with hm | hm
        · exact ⟨0, by simp, by simpa [listMaxQ] using hm.symm⟩
        · obtain ⟨⟨j, hj⟩, hjv⟩ := List.mem_iff_get.mp hm
          refine ⟨j + 1, by simpa using Nat.succ_lt_succ hj, ?_⟩
          rw [List.getD_cons_succ, getD_eq_get xs 0 hj, hjv]
          rfl
      · intro k hk
        cases k with
        | zero => exact le_foldl_max xs x
        | succ m =>
            rw [List.getD_cons_succ,
              getD_eq_get xs 0 (Nat.lt_of_succ_lt_succ hk)]
            exact mem_le_foldl_max xs x _ (List.get_mem xs _ _)

theorem pyMax2_fin_fin (a b : ℚ) : pyMax2 (fin a) (fin b) = fin (max a b) := by
  rw [pyMax2, lt_fin_fin]
  by_cases h : a < b
  · simp [h, max_eq_right h.le]
  · simp [h, max_eq_left (not_lt.mp h)]

/-- ℚ-level shadow of `yieldStep` on finite data. -/
def yieldQL (sq qs : List ℚ) (y : ℚ) : ℚ :=
  if (validMaskQ sq).any id then
    (maskFilter qs (validMaskQ sq)).getD
      (argminQ (maskFilter (absDiffQ qs (offsetLineQ sq y)) (validMaskQ sq))) 0
  else listMaxQ qs * (4/5)

theorem any_id_map {α : Type} (f : α → Bool) (l : List α) :
    (l.map f).any id = l.any f := by
  induction l with
  | nil => rfl
  | cons x xs ih => simp [ih]

theorem validMaskQ_length (sq : List ℚ) : (validMaskQ sq).length = sq.length := by
  simp [validMaskQ]

theorem absDiffQ_length (qs os : List ℚ) (h : qs.length ≤ os.length) :
    (absDiffQ qs os).length = qs.length := by
  simp [absDiffQ]
  omega

theorem offsetLineQ_length (sq : List ℚ) (y : ℚ) :
    (offsetLineQ sq y).length = sq.length := by
  simp [offsetLineQ]

/-- Correspondence for the yield step on finite inputs of equal lengths. -/
theorem yieldStep_map_fin (sq qs : List ℚ) (y : ℚ) (hne : qs ≠ [])
    (hlen : qs.length = sq.length) :
    yieldStep (sq.map fin) (qs.map fin) (fin y) = fin (yieldQL sq qs y) := by
  unfold yieldStep yieldQL
  rw [validMask_map_fin, offsetLine_map_fin, absDiff_map_fin,
    maskFilter_map_fin, maskFilter_map_fin, npArgmin_map_fin]
  by_cases hany : (validMaskQ sq).any id
  · rw [if_pos hany, if_pos hany]
    obtain ⟨q0, hq0⟩ := List.any_eq_true.mp hany
    simp only [id] at hq0
    obtain ⟨⟨j0, hj0⟩, hj0v⟩ := List.mem_iff_get.mp hq0.1
    have hdlen : (absDiffQ qs (offsetLineQ sq y)).length = qs.length := by
      rw [absDiffQ_length]
      rw [offsetLineQ_length]
      omega
    have hmask : (validMaskQ sq).getD j0 false = true := by
      rw [getD_eq_get _ _ hj0, hj0v]
      exact hq0.2
    have hjd : j0 < (absDiffQ qs (offsetLineQ sq y)).length := by
      rw [hdlen, hlen]
      rw [validMaskQ_length] at hj0
      exact hj0
    obtain ⟨i, hi, hA, hB⟩ :=
      maskFilter_getD_pair_rev (0 : ℚ) (0 : ℚ)
        (absDiffQ qs (offsetLineQ sq y)) qs (validMaskQ sq)
        (by rw [hdlen]) (by rw [validMaskQ_length, hdlen, hlen]) j0 hjd hmask
    have hfd_ne : maskFilter (absDiffQ qs (offsetLineQ sq y)) (validMaskQ sq) ≠ [] := by
      intro hc
      rw [hc] at hi
      simp at hi
    obtain ⟨x0, xs0, hcons⟩ := List.exists_cons_of_ne_nil hfd_ne
    have hargbound :
        argminQ (maskFilter (absDiffQ qs (offsetLineQ sq y)) (validMaskQ sq)) <
          (maskFilter (absDiffQ qs (offsetLineQ sq y)) (validMaskQ sq)).length := by
      rw [hcons]
      exact (argminQ_spec x0 xs0).1
    have hslen :
        (maskFilter (absDiffQ qs (offsetLineQ sq y)) (validMaskQ sq)).length =
          (maskFilter qs (validMaskQ sq)).length :=
      maskFilter_length_eq _ _ _ (by rw [hdlen])
    rw [getD_map_fin]
    rw [← hslen]
    exact hargbound
  · rw [if_neg hany, if_neg hany, npMax_map_fin_ne_nil hne, mul_fin_fin]

/-- ℚ-level shadow of the whole successful computation on finite inputs. -/
def computeQL (sq tq : List ℚ) : PropertyResult :=
  { elasticModulus := ⟨fin (max (youngsQL sq (smoothQL tq)) 0), "GPa"⟩
    yieldStrength :=
      ⟨fin (max (yieldQL sq (smoothQL tq) (youngsQL sq (smoothQL tq))) 0),
        "MPa"⟩
    tensileStrength := ⟨fin (max (listMaxQ (smoothQL tq)) 0), "MPa"⟩
    fractureStrain := ⟨fin (max (sq.getD (argmaxQ (smoothQL tq)) 0) 0), ""⟩
    toughness := ⟨fin (max (trapzQ sq (smoothQL tq) / 1000000) 0), "MJ/m³"⟩ }

/-- Master correspondence: on all-finite inputs of equal length (at least
two samples) the computation always succeeds and produces exactly the
ℚ-level result. -/
theorem computeE_map_fin (sq tq : List ℚ) (h2 : 2 ≤ sq.length)
    (hlen : sq.length = tq.length) :
    computeE (sq.map fin) (tq.map fin) = .ok (computeQL sq tq) := by
  have hsmlen : (smoothQL tq).length = sq.length := by
    rw [smoothQL_length]
    omega
  have hsmne : smoothQL tq ≠ [] := by
    intro hc
    rw [hc] at hsmlen
    simp at hsmlen
    omega
  obtain ⟨m0, ms, hmcons⟩ := List.exists_cons_of_ne_nil hsmne
  have hargb : argmaxQ (smoothQL tq) < sq.length := by
    rw [← hsmlen, hmcons]
    exact (argmaxQ_spec m0 ms).1
  unfold computeE
  rw [if_neg (by simp; omega), smoothStep_map_fin]
  dsimp only
  rw [youngsStep_map_fin]
  dsimp only
  unfold toughnessStep
  rw [yieldStep_map_fin sq (smoothQL tq) _ hsmne hsmlen,
    npMax_map_fin_ne_nil hsmne, npArgmax_map_fin, getD_map_fin sq nan hargb,
    npTrapz_map_fin, div_fin_fin _ _ (by norm_num), pyMax2_fin_fin,
    pyMax2_fin_fin, pyMax2_fin_fin, pyMax2_fin_fin, pyMax2_fin_fin]
  rfl

theorem count_true_map {α : Type} (f : α → Bool) (l : List α) :
    (l.map f).count true = l.countP f := by
  induction l with
  | nil => rfl
  | cons x xs ih => cases hfx : f x <;> simp [hfx, ih, List.count_cons]

/-! ## Claim theorems. -/

/-- Claim C1: `calculate_material_properties` is total (it never raises to
its caller), always returns a mapping with exactly the five documented
entries (`PropertyResult` has exactly those five fields by construction),
and whenever the internal computation fails the entire fixed fallback
result is returned — a computed result is returned in whole or not at
all, never mixed with fallback entries. -/
theorem C1_total_atomic_fallback (strain stress : List PyFloat) :
    (computeE strain stress = .error () ∧
      calculate_material_properties strain stress = fallbackResult) ∨
    computeE strain stress =
      .ok (calculate_material_properties strain stress) := by
  cases h : computeE strain stress with
  | error e =>
      exact Or.inl ⟨by cases e; rfl, by simp [calculate_material_properties, h]⟩
  | ok r => exact Or.inr (by simp [calculate_material_properties, h])

/-- Claim C10: for more than 10 samples the smoothing window
`min(11, count)` is exactly 11, which is odd and at least 3, so the
even-window decrement branch and the skip-smoothing branch are
unreachable and Savitzky-Golay smoothing with window 11 and degree 3 is
applied unconditionally. -/
theorem C10_window_always_eleven (stress : List PyFloat)
    (h : 10 < stress.length) :
    min 11 stress.length = 11 ∧ min 11 stress.length % 2 ≠ 0 ∧
    3 ≤ min 11 stress.length ∧
    smoothStep stress = savgol_filter 11 stress := by
  have hm : min 11 stress.length = 11 := by omega
  refine ⟨hm, by rw [hm]; decide, by rw [hm]; omega, ?_⟩
  simp [smoothStep, h, hm]

theorem C10_witness :
    10 < (List.replicate 11 (fin 0)).length ∧
    (min 11 (List.replicate 11 (fin 0)).length = 11 ∧
      min 11 (List.replicate 11 (fin 0)).length % 2 ≠ 0 ∧
      3 ≤ min 11 (List.replicate 11 (fin 0)).length ∧
      smoothStep (List.replicate 11 (fin 0)) =
        savgol_filter 11 (List.replicate 11 (fin 0))) :=
  ⟨by simp, C10_window_always_eleven (List.replicate 11 (fin 0)) (by simp)⟩

/-- Claim C6: for at least 2 samples of equal length with at most 5
indices in the elastic region (`strain[i] <= 0.002`), the returned
elastic modulus is exactly 200 (GPa), regardless of the stress values:
the success path takes the default branch, and the fallback also carries
modulus 200. -/
theorem C6_modulus_default (strain stress : List PyFloat)
    (hlen : strain.length = stress.length) (h2 : 2 ≤ strain.length)
    (he : strain.countP (fun v => le v (fin (1/500))) ≤ 5) :
    (calculate_material_properties strain stress).elasticModulus.value =
      fin 200 := by
  have hmask : ¬ 5 < (elasticMask strain).count true := by
    rw [elasticMask, count_true_map]
    omega
  cases hsm : smoothStep stress with
  | error e =>
      simp [calculate_material_properties, computeE, hsm,
        Nat.not_lt.mpr h2, fallbackResult]
  | ok sm =>
      have hys : youngsStep strain sm = .ok (fin 200) := by
        rw [youngsStep, if_neg hmask]
      simp [calculate_material_properties, computeE, hsm, hys,
        Nat.not_lt.mpr h2]
      rfl

theorem C6_witness :
    ([fin (3/1000), fin (1/250)] : List PyFloat).countP
      (fun v => le v (fin (1/500))) ≤ 5 ∧
    (calculate_material_properties [fin (3/1000), fin (1/250)]
      [fin 1, fin 2]).elasticModulus.value = fin 200 :=
  ⟨by decide!, C6_modulus_default [fin (3/1000), fin (1/250)] [fin 1, fin 2]
    (by decide!) (by decide!) (by decide!)⟩

/-- Concrete input for C5: strain ends with `+inf`, stress is finite. -/
def strainC5 : List PyFloat :=
  [fin (3/1000), fin (1/250), fin (1/200), fin (3/500), fin (7/1000),
   PyFloat.inf]

/-- Concrete stress paired with `strainC5`. -/
def stressC5 : List PyFloat := [fin 1, fin 2, fin 3, fin 4, fin 5, fin 6]

/-- Claim C5 counterexample: an input containing an infinite strain value
on which the computation completes normally and returns a result that is
not the fallback and itself contains an infinite entry (the fracture
strain), contradicting "returns exactly the fixed fallback
PropertyResult". -/
theorem C5_counterexample :
    (∃ v ∈ strainC5, isFinite v = false) ∧
    calculate_material_properties strainC5 stressC5 ≠ fallbackResult ∧
    (calculate_material_properties strainC5 stressC5).fractureStrain.value =
      PyFloat.inf := by
  decide!

/-- Claim C5 amended: the function never raises (see C1), but a NaN/Inf
input is not always routed to the fallback: whenever the smoothing branch
(more than 10 samples) and the elastic fit branch (more than 5 elastic
samples) are not taken, the computation completes normally on arbitrary
PyFloat inputs and returns the computed (possibly non-finite) result. -/
theorem C5_amended (strain stress : List PyFloat)
    (hlen : strain.length = stress.length) (h2 : 2 ≤ strain.length)
    (h10 : strain.length ≤ 10)
    (he : strain.countP (fun v => le v (fin (1/500))) ≤ 5) :
    computeE strain stress =
      .ok (calculate_material_properties strain stress) := by
  have hsm : smoothStep stress = .ok stress := by
    rw [smoothStep, if_neg (by omega)]
  have hmask : ¬ 5 < (elasticMask strain).count true := by
    rw [elasticMask, count_true_map]
    omega
  have hys : youngsStep strain stress = .ok (fin 200) := by
    rw [youngsStep, if_neg hmask]
  simp [calculate_material_properties, computeE, hsm, hys,
    Nat.not_lt.mpr h2]

theorem C5_witness :
    (∃ v ∈ ([fin (3/1000), PyFloat.inf] : List PyFloat),
      isFinite v = false) ∧
    computeE [fin (3/1000), PyFloat.inf] [fin 1, fin 2] =
      .ok (calculate_material_properties [fin (3/1000), PyFloat.inf]
        [fin 1, fin 2]) :=
  ⟨by decide!, C5_amended [fin (3/1000), PyFloat.inf] [fin 1, fin 2]
    (by decide!) (by decide!) (by decide!) (by decide!)⟩

theorem toQ_length (l : List PyFloat) : (toQ l).length = l.length := by
  simp [toQ]

instance instDecidableEqExcept {ε α : Type} [DecidableEq ε] [DecidableEq α] :
    DecidableEq (Except ε α) := fun a b =>
  match a, b with
  | .error e, .error f =>
      if h : e = f then .isTrue (h ▸ rfl)
      else .isFalse (fun hc => h (Except.error.inj hc))
  | .error _, .ok _ => .isFalse (fun hc => Except.noConfusion hc)
  | .ok _, .error _ => .isFalse (fun hc => Except.noConfusion hc)
  | .ok x, .ok y =>
      if h : x = y then .isTrue (h ▸ rfl)
      else .isFalse (fun hc => h (Except.ok.inj hc))

/-- Concrete input for C2: strain ends with NaN, stress is finite. -/
def strainC2 : List PyFloat :=
  [fin (3/1000), fin (1/250), fin (1/200), fin (3/500), fin (7/1000),
   PyFloat.nan]

/-- Concrete stress paired with `strainC2`. -/
def stressC2 : List PyFloat := [fin 10, fin 20, fin 30, fin 40, fin 50, fin 60]

/-- Claim C2 counterexample: an input containing NaN on which the
computation completes normally and returns a toughness of NaN, which is
not `≥ 0` under IEEE comparison — the clamping invariant fails for
NaN-containing inputs (`max(nan, 0) = nan` in Python). -/
theorem C2_counterexample :
    (∃ v ∈ strainC2, isFinite v = false) ∧
    (calculate_material_properties strainC2 stressC2).toughness.value =
      PyFloat.nan ∧
    le (fin 0)
      ((calculate_material_properties strainC2 stressC2).toughness.value) =
      false := by
  decide!

/-- Claim C2 amended: for inputs whose strain and stress values are all
finite (and of equal length), every one of the five returned values is
non-negative; the fallback result (taken e.g. for fewer than 2 samples)
also satisfies the invariant. -/
theorem C2_amended (strain stress : List PyFloat)
    (hs : strain.all isFinite = true) (ht : stress.all isFinite = true)
    (hlen : strain.length = stress.length) :
    ∀ v ∈ fieldValues (calculate_material_properties strain stress),
      le (fin 0) v = true := by
  by_cases h2 : strain.length < 2
  · have he : computeE strain stress = .error () := by
      rw [computeE, if_pos h2]
    intro v hv
    simp only [calculate_material_properties, he, fieldValues,
      fallbackResult, List.mem_cons, List.not_mem_nil, or_false] at hv
    rcases hv with rfl | rfl | rfl | rfl | rfl <;> decide!
  · have hmQ : computeE strain stress =
        .ok (computeQL (toQ strain) (toQ stress)) := by
      conv_lhs => rw [eq_map_fin_of_all_isFinite hs,
        eq_map_fin_of_all_isFinite ht]
      exact computeE_map_fin _ _ (by rw [toQ_length]; omega)
        (by rw [toQ_length, toQ_length, hlen])
    intro v hv
    simp only [calculate_material_properties, hmQ, fieldValues, computeQL,
      List.mem_cons, List.not_mem_nil, or_false] at hv
    rcases hv with rfl | rfl | rfl | rfl | rfl <;>
      exact (le_fin_fin 0 _).trans (decide_eq_true_eq.mpr (le_max_right _ _))

theorem C2_witness :
    ([fin 0, fin (3/1000)] : List PyFloat).all isFinite = true ∧
    ∀ v ∈ fieldValues
      (calculate_material_properties [fin 0, fin (3/1000)] [fin 5, fin 7]),
      le (fin 0) v = true :=
  ⟨by decide!, C2_amended [fin 0, fin (3/1000)] [fin 5, fin 7]
    (by decide!) (by decide!) (by decide!)⟩

/-- Concrete strain for C3 (6 samples: no smoothing, empty elastic
region). -/
def sqC3 : List ℚ := [3/1000, 1/250, 1/200, 3/500, 7/1000, 1/125]

/-- Concrete constant stress for C3. -/
def tqC3 : List ℚ := [1000, 1000, 1000, 1000, 1000, 1000]

/-- Claim C3 counterexample: on a concrete 6-sample input the computation
succeeds, smoothing is the identity, the trapezoidal integral is 5, and
the returned toughness is `5 / 1e6`, not within 1e-6 relative tolerance
of the claimed `5 / 1000` — the source divides by 1e6 (src/app.py line
90), not by 1000. -/
theorem C3_counterexample :
    computeE (sqC3.map fin) (tqC3.map fin) =
      .ok (calculate_material_properties (sqC3.map fin) (tqC3.map fin)) ∧
    smoothStep (tqC3.map fin) = .ok (tqC3.map fin) ∧
    trapzQ sqC3 tqC3 = 5 ∧
    (calculate_material_properties (sqC3.map fin) (tqC3.map fin)).toughness.value
      = fin (1/200000) ∧
    ¬ |(1/200000 : ℚ) - max (trapzQ sqC3 tqC3 / 1000) 0| ≤
        (1/1000000) * |max (trapzQ sqC3 tqC3 / 1000) 0| := by
  decide!

/-- Claim C3 amended: on every finite input of equal lengths (at least 2
samples) the computation succeeds and the returned toughness is exactly
the trapezoidal-rule integral of the smoothed stress over the strain
divided by 1e6 (not 1000), clamped at 0. -/
theorem C3_amended (sq tq : List ℚ) (h2 : 2 ≤ sq.length)
    (hlen : sq.length = tq.length) :
    smoothStep (tq.map fin) = .ok ((smoothQL tq).map fin) ∧
    (calculate_material_properties (sq.map fin) (tq.map fin)).toughness.value
      = fin (max (trapzQ sq (smoothQL tq) / 1000000) 0) := by
  refine ⟨smoothStep_map_fin tq, ?_⟩
  simp only [calculate_material_properties, computeE_map_fin sq tq h2 hlen]
  rfl

theorem C3_witness :
    2 ≤ ([0, 1/100, 1/50] : List ℚ).length ∧
    (smoothStep (([10, 20, 30] : List ℚ).map fin) =
      .ok ((smoothQL [10, 20, 30]).map fin) ∧
    (calculate_material_properties (([0, 1/100, 1/50] : List ℚ).map fin)
        (([10, 20, 30] : List ℚ).map fin)).toughness.value
      = fin (max (trapzQ [0, 1/100, 1/50] (smoothQL [10, 20, 30]) / 1000000) 0)) :=
  ⟨by decide!, C3_amended [0, 1/100, 1/50] [10, 20, 30] (by decide!) (by decide!)⟩

/-- The 100-point linear test curve of the spec:
`strain = linspace(0, 0.01, 100)` (exactly `i/9900`). -/
def sqC4 : List ℚ := (List.range 100).map (fun i => (i : ℚ) / 9900)

/-- `stress = 200000 * strain` over `sqC4`. -/
def tqC4 : List ℚ := sqC4.map (fun q => 200000 * q)

/-- Claim C4 evaluation: on the spec's linear test curve the source
returns an elastic modulus of exactly `1/5000 = 0.0002` (labelled GPa),
which is not within 5% of 200 GPa (it is off by a factor of 1e6): the
slope of a curve whose stress is in MPa is divided by 1e9 as though the
stress were in Pa (src/app.py line 64). -/
theorem C4_linear_curve_modulus :
    (calculate_material_properties (sqC4.map fin) (tqC4.map fin)).elasticModulus.value
      = fin (1/5000) ∧
    ¬ ((190 : ℚ) ≤ 1/5000 ∧ (1/5000 : ℚ) ≤ 210) := by
  decide!

/-- Concrete strain for C8 (all indices above the elastic region). -/
def sqC8 : List ℚ := [3/1000, 1/250, 1/200, 3/500, 7/1000, 1/125]

/-- Concrete stress for C8: finite values followed by NaN. -/
def stressC8 : List PyFloat :=
  [fin 10, fin 20, fin 30, fin 40, fin 50, PyFloat.nan]

/-- Claim C8 counterexample: on a concrete NaN-containing input the
computation succeeds and returns tensile strength NaN, but no index of
the smoothed stress (here equal to the raw stress) is a maximum under
IEEE comparison whose clamped value equals the returned tensile
strength — "the maximum of the smoothed stress" does not exist for
NaN-polluted data, yet compute succeeds. -/
theorem C8_counterexample :
    computeE (sqC8.map fin) stressC8 =
      .ok (calculate_material_properties (sqC8.map fin) stressC8) ∧
    smoothStep stressC8 = .ok stressC8 ∧
    (calculate_material_properties (sqC8.map fin) stressC8).tensileStrength.value
      = PyFloat.nan ∧
    ¬ ∃ j : Fin 6,
        (∀ k : Fin 6,
          le (stressC8.getD k.val nan) (stressC8.getD j.val nan) = true) ∧
        (calculate_material_properties (sqC8.map fin) stressC8).tensileStrength.value
          = pyMax2 (stressC8.getD j.val nan) (fin 0) := by
  decide!

/-- Claim C8 amended: for finite inputs of equal lengths (at least 2
samples), the returned tensile strength is the clamp of the value of the
smoothed stress at a maximizing index, and the returned fracture strain
is the clamp of the strain at the first index of peak smoothed stress. -/
theorem C8_amended (sq tq : List ℚ) (h2 : 2 ≤ sq.length)
    (hlen : sq.length = tq.length) :
    smoothStep (tq.map fin) = .ok ((smoothQL tq).map fin) ∧
    (∃ j, j < (smoothQL tq).length ∧
      (∀ k, k < (smoothQL tq).length →
        (smoothQL tq).getD k 0 ≤ (smoothQL tq).getD j 0) ∧
      (calculate_material_properties (sq.map fin) (tq.map fin)).tensileStrength.value
        = fin (max ((smoothQL tq).getD j 0) 0)) ∧
    (∃ j, j < (smoothQL tq).length ∧
      (∀ k, k < (smoothQL tq).length →
        (smoothQL tq).getD k 0 ≤ (smoothQL tq).getD j 0) ∧
      (∀ k, k < j → (smoothQL tq).getD k 0 < (smoothQL tq).getD j 0) ∧
      (calculate_material_properties (sq.map fin) (tq.map fin)).fractureStrain.value
        = fin (max (sq.getD j 0) 0)) := by
  have hsmlen : (smoothQL tq).length = tq.length := smoothQL_length tq
  have hsmne : smoothQL tq ≠ [] := by
    intro hc
    rw [hc] at hsmlen
    simp at hsmlen
    omega
  obtain ⟨m0, ms, hmcons⟩ := List.exists_cons_of_ne_nil hsmne
  have hcalc : calculate_material_properties (sq.map fin) (tq.map fin) =
      computeQL sq tq := by
    simp [calculate_material_properties, computeE_map_fin sq tq h2 hlen]
  refine ⟨smoothStep_map_fin tq, ?_, ?_⟩
  · obtain ⟨⟨j, hj, hjv⟩, hub⟩ := listMaxQ_spec hsmne
    refine ⟨j, hj, ?_, ?_⟩
    · intro k hk
      rw [hjv]
      exact hub k hk
    · rw [hcalc]
      show fin (max (listMaxQ (smoothQL tq)) 0) = _
      rw [hjv]
  · have hspec := argmaxQ_spec m0 ms
    rw [← hmcons] at hspec
    obtain ⟨hb, hub, hfirst⟩ := hspec
    refine ⟨argmaxQ (smoothQL tq), hb, hub, hfirst, ?_⟩
    rw [hcalc]
    rfl

theorem C8_witness :
    2 ≤ ([0, 3/1000, 6/1000] : List ℚ).length ∧
    (smoothStep (([7, 9, 8] : List ℚ).map fin) =
      .ok ((smoothQL [7, 9, 8]).map fin) ∧
    (∃ j, j < (smoothQL [7, 9, 8]).length ∧
      (∀ k, k < (smoothQL [7, 9, 8]).length →
        (smoothQL [7, 9, 8]).getD k 0 ≤ (smoothQL [7, 9, 8]).getD j 0) ∧
      (calculate_material_properties (([0, 3/1000, 6/1000] : List ℚ).map fin)
        (([7, 9, 8] : List ℚ).map fin)).tensileStrength.value
        = fin (max ((smoothQL [7, 9, 8]).getD j 0) 0)) ∧
    (∃ j, j < (smoothQL [7, 9, 8]).length ∧
      (∀ k, k < (smoothQL [7, 9, 8]).length →
        (smoothQL [7, 9, 8]).getD k 0 ≤ (smoothQL [7, 9, 8]).getD j 0) ∧
      (∀ k, k < j →
        (smoothQL [7, 9, 8]).getD k 0 < (smoothQL [7, 9, 8]).getD j 0) ∧
      (calculate_material_properties (([0, 3/1000, 6/1000] : List ℚ).map fin)
        (([7, 9, 8] : List ℚ).map fin)).fractureStrain.value
        = fin (max (([0, 3/1000, 6/1000] : List ℚ).getD j 0) 0))) :=
  ⟨by decide!, C8_amended [0, 3/1000, 6/1000] [7, 9, 8] (by decide!) (by decide!)⟩

theorem getD_zip {α β : Type} (l : List α) (l2 : List β) (a : α) (b : β) :
    ∀ n : ℕ, n < l.length → n < l2.length →
      (l.zip l2).getD n (a, b) = (l.getD n a, l2.getD n b) := by
  induction l generalizing l2 with
  | nil =>
      intro n h1 h2
      simp at h1
  | cons x xs ih =>
      intro n h1 h2
      cases l2 with
      | nil => simp at h2
      | cons z zs =>
          cases n with
          | zero => rfl
          | succ m =>
              exact ih zs m (Nat.lt_of_succ_lt_succ h1)
                (Nat.lt_of_succ_lt_succ h2)

theorem validMaskQ_any_iff (sq : List ℚ) :
    (validMaskQ sq).any id = true ↔
      ∃ i, i < sq.length ∧ 1/500 < sq.getD i 0 := by
  rw [validMaskQ, any_id_map, List.any_eq_true]
  constructor
  · rintro ⟨q, hq, hdec⟩
    obtain ⟨⟨i, hi⟩, hiv⟩ := List.mem_iff_get.mp hq
    refine ⟨i, hi, ?_⟩
    rw [getD_eq_get sq 0 hi, hiv]
    exact of_decide_eq_true hdec
  · rintro ⟨i, hi, hlt⟩
    refine ⟨sq.getD i 0, ?_, decide_eq_true hlt⟩
    rw [getD_eq_get sq 0 hi]
    exact List.get_mem sq _ _

/-- Claim C7 amended: for finite inputs of equal lengths (at least 2
samples), with `y` the internally computed (pre-clamp) modulus in GPa:
if some strain exceeds 0.002, the returned yield strength is the clamp of
the smoothed stress at an index, among those with strain above 0.002,
minimizing `|stress_smooth[i] - y*1e9*(strain[i] - 0.002)|`; otherwise it
is the clamp of `0.8 * max(stress_smooth)`. -/
theorem C7_amended (sq tq : List ℚ) (h2 : 2 ≤ sq.length)
    (hlen : sq.length = tq.length) :
    ∃ y : ℚ,
      youngsStep (sq.map fin) ((smoothQL tq).map fin) = .ok (fin y) ∧
      ((∃ i, i < sq.length ∧ 1/500 < sq.getD i 0) →
        ∃ j, j < sq.length ∧ 1/500 < sq.getD j 0 ∧
          (∀ k, k < sq.length → 1/500 < sq.getD k 0 →
            |(smoothQL tq).getD j 0 - y * 1000000000 * (sq.getD j 0 - 1/500)| ≤
            |(smoothQL tq).getD k 0 - y * 1000000000 * (sq.getD k 0 - 1/500)|) ∧
          (calculate_material_properties (sq.map fin) (tq.map fin)).yieldStrength.value
            = fin (max ((smoothQL tq).getD j 0) 0)) ∧
      ((¬ ∃ i, i < sq.length ∧ 1/500 < sq.getD i 0) →
        (calculate_material_properties (sq.map fin) (tq.map fin)).yieldStrength.value
          = fin (max (listMaxQ (smoothQL tq) * (4/5)) 0)) := by
  have hcalc : calculate_material_properties (sq.map fin) (tq.map fin) =
      computeQL sq tq := by
    simp [calculate_material_properties, computeE_map_fin sq tq h2 hlen]
  have hSlen : (smoothQL tq).length = sq.length := by
    rw [smoothQL_length]
    omega
  have hOlen : (offsetLineQ sq (youngsQL sq (smoothQL tq))).length = sq.length :=
    offsetLineQ_length sq _
  have hDlen :
      (absDiffQ (smoothQL tq)
        (offsetLineQ sq (youngsQL sq (smoothQL tq)))).length = sq.length := by
    rw [absDiffQ_length _ _ (by rw [hSlen, hOlen]), hSlen]
  have hMlen : (validMaskQ sq).length = sq.length := validMaskQ_length sq
  have hDgetD : ∀ m, m < sq.length →
      (absDiffQ (smoothQL tq)
        (offsetLineQ sq (youngsQL sq (smoothQL tq)))).getD m 0 =
      |(smoothQL tq).getD m 0 -
        youngsQL sq (smoothQL tq) * 1000000000 * (sq.getD m 0 - 1/500)| := by
    intro m hm
    rw [absDiffQ, getD_map _ _ 0 ((0 : ℚ), (0 : ℚ))
      (by rw [List.length_zip, hSlen, hOlen]; omega)]
    rw [getD_zip _ _ 0 0 m (by rw [hSlen]; omega) (by rw [hOlen]; omega)]
    rw [offsetLineQ, getD_map _ sq 0 0 hm]
  have hMgetD : ∀ m, m < sq.length →
      ((validMaskQ sq).getD m false = true ↔ 1/500 < sq.getD m 0) := by
    intro m hm
    rw [validMaskQ, getD_map _ sq false 0 hm]
    exact ⟨of_decide_eq_true, decide_eq_true⟩
  refine ⟨youngsQL sq (smoothQL tq), youngsStep_map_fin sq (smoothQL tq),
    ?_, ?_⟩
  · intro hex
    have hany : (validMaskQ sq).any id = true := (validMaskQ_any_iff sq).mpr hex
    obtain ⟨i0, hi0, hi0v⟩ := hex
    obtain ⟨i1, hi1, hfd1, hfs1⟩ :=
      maskFilter_getD_pair_rev (0 : ℚ) (0 : ℚ)
        (absDiffQ (smoothQL tq) (offsetLineQ sq (youngsQL sq (smoothQL tq))))
        (smoothQL tq) (validMaskQ sq) (by rw [hDlen, hSlen])
        (by rw [hMlen, hDlen]) i0 (by rw [hDlen]; exact hi0)
        ((hMgetD i0 hi0).mpr hi0v)
    have hfdne : maskFilter
        (absDiffQ (smoothQL tq) (offsetLineQ sq (youngsQL sq (smoothQL tq))))
        (validMaskQ sq) ≠ [] := by
      intro hc
      rw [hc] at hi1
      simp at hi1
    obtain ⟨f0, fs0, hfcons⟩ := List.exists_cons_of_ne_nil hfdne
    have hargb : argminQ (maskFilter
        (absDiffQ (smoothQL tq) (offsetLineQ sq (youngsQL sq (smoothQL tq))))
        (validMaskQ sq)) < (maskFilter
        (absDiffQ (smoothQL tq) (offsetLineQ sq (youngsQL sq (smoothQL tq))))
        (validMaskQ sq)).length := by
      rw [hfcons]
      exact (argminQ_spec f0 fs0).1
    have hargmin : ∀ k2, k2 < (maskFilter
        (absDiffQ (smoothQL tq) (offsetLineQ sq (youngsQL sq (smoothQL tq))))
        (validMaskQ sq)).length →
        (maskFilter
          (absDiffQ (smoothQL tq) (offsetLineQ sq (youngsQL sq (smoothQL tq))))
          (validMaskQ sq)).getD (argminQ (maskFilter
          (absDiffQ (smoothQL tq) (offsetLineQ sq (youngsQL sq (smoothQL tq))))
          (validMaskQ sq))) 0 ≤ (maskFilter
          (absDiffQ (smoothQL tq) (offsetLineQ sq (youngsQL sq (smoothQL tq))))
          (validMaskQ sq)).getD k2 0 := by
      rw [hfcons]
      exact (argminQ_spec f0 fs0).2
    obtain ⟨j, hj, hmj, hfdj, hfsj⟩ :=
      maskFilter_getD_pair (0 : ℚ) (0 : ℚ)
        (absDiffQ (smoothQL tq) (offsetLineQ sq (youngsQL sq (smoothQL tq))))
        (smoothQL tq) (validMaskQ sq) (by rw [hDlen, hSlen])
        (by rw [hMlen, hDlen]) _ hargb
    rw [hDlen] at hj
    have hjv : 1/500 < sq.getD j 0 := (hMgetD j hj).mp hmj
    refine ⟨j, hj, hjv, ?_, ?_⟩
    · intro k hk hkv
      obtain ⟨i2, hi2, hfdk, hfsk⟩ :=
        maskFilter_getD_pair_rev (0 : ℚ) (0 : ℚ)
          (absDiffQ (smoothQL tq) (offsetLineQ sq (youngsQL sq (smoothQL tq))))
          (smoothQL tq) (validMaskQ sq) (by rw [hDlen, hSlen])
          (by rw [hMlen, hDlen]) k (by rw [hDlen]; exact hk)
          ((hMgetD k hk).mpr hkv)
      have hmin := hargmin i2 hi2
      rw [hfdj, hfdk] at hmin
      rw [hDgetD j hj, hDgetD k hk] at hmin
      exact hmin
    · rw [hcalc]
      show fin (max (yieldQL sq (smoothQL tq) (youngsQL sq (smoothQL tq))) 0) = _
      rw [yieldQL, if_pos hany, hfsj]
  · intro hnex
    have hany : ¬ (validMaskQ sq).any id = true := fun h =>
      hnex ((validMaskQ_any_iff sq).mp h)
    rw [hcalc]
    show fin (max (yieldQL sq (smoothQL tq) (youngsQL sq (smoothQL tq))) 0) = _
    rw [yieldQL, if_neg hany]

theorem C7_witness :
    2 ≤ ([3/1000, 1/250] : List ℚ).length ∧
    (∃ y : ℚ,
      youngsStep (([3/1000, 1/250] : List ℚ).map fin)
        ((smoothQL [10, 20]).map fin) = .ok (fin y) ∧
      ((∃ i, i < ([3/1000, 1/250] : List ℚ).length ∧
          1/500 < ([3/1000, 1/250] : List ℚ).getD i 0) →
        ∃ j, j < ([3/1000, 1/250] : List ℚ).length ∧
          1/500 < ([3/1000, 1/250] : List ℚ).getD j 0 ∧
          (∀ k, k < ([3/1000, 1/250] : List ℚ).length →
            1/500 < ([3/1000, 1/250] : List ℚ).getD k 0 →
            |(smoothQL [10, 20]).getD j 0 -
              y * 1000000000 * (([3/1000, 1/250] : List ℚ).getD j 0 - 1/500)| ≤
            |(smoothQL [10, 20]).getD k 0 -
              y * 1000000000 * (([3/1000, 1/250] : List ℚ).getD k 0 - 1/500)|) ∧
          (calculate_material_properties
            (([3/1000, 1/250] : List ℚ).map fin)
            (([10, 20] : List ℚ).map fin)).yieldStrength.value
            = fin (max ((smoothQL [10, 20]).getD j 0) 0)) ∧
      ((¬ ∃ i, i < ([3/1000, 1/250] : List ℚ).length ∧
          1/500 < ([3/1000, 1/250] : List ℚ).getD i 0) →
        (calculate_material_properties
          (([3/1000, 1/250] : List ℚ).map fin)
          (([10, 20] : List ℚ).map fin)).yieldStrength.value
          = fin (max (listMaxQ (smoothQL [10, 20]) * (4/5)) 0))) :=
  ⟨by decide!, C7_amended [3/1000, 1/250] [10, 20] (by decide!) (by decide!)⟩

/-- Concrete strain for C7 (all indices above the elastic region). -/
def sqC7 : List ℚ := [3/1000, 1/250, 1/200, 3/500, 7/1000, 1/125]

/-- Concrete stress for C7: NaN first, then finite values. -/
def stressC7 : List PyFloat :=
  [PyFloat.nan, fin 20, fin 30, fin 40, fin 50, fin 60]

/-- Claim C7 counterexample: on a concrete NaN-containing input the
computation succeeds, some strain exceeds 0.002, yet no index with
strain above 0.002 both minimizes the offset-line distance under IEEE
comparison and yields the returned (NaN) yield strength — numpy's
`argmin` lands on the first NaN, which minimizes nothing. -/
theorem C7_counterexample :
    computeE (sqC7.map fin) stressC7 =
      .ok (calculate_material_properties (sqC7.map fin) stressC7) ∧
    smoothStep stressC7 = .ok stressC7 ∧
    youngsStep (sqC7.map fin) stressC7 = .ok (fin 200) ∧
    (∃ i : Fin 6,
      lt (fin (1/500)) ((sqC7.map fin).getD i.val nan) = true) ∧
    ¬ ∃ j : Fin 6,
        lt (fin (1/500)) ((sqC7.map fin).getD j.val nan) = true ∧
        (∀ k : Fin 6,
          lt (fin (1/500)) ((sqC7.map fin).getD k.val nan) = true →
          le ((absDiff stressC7
              (offsetLine (sqC7.map fin) (fin 200))).getD j.val nan)
            ((absDiff stressC7
              (offsetLine (sqC7.map fin) (fin 200))).getD k.val nan) = true) ∧
        (calculate_material_properties (sqC7.map fin) stressC7).yieldStrength.value
          = pyMax2 (stressC7.getD j.val nan) (fin 0) := by
  decide!

/-- Claim C9 counterexample: with a single sample and a non-null result,
the source draws no markers at all (`if results and len(strain) > 1`,
src/app.py line 121), contradicting "whenever a non-null result is
supplied, the yield marker is placed … and the tensile marker …". -/
theorem C9_counterexample :
    chartMarkers [fin (1/100)] [fin 50] (some fallbackResult) =
      ChartMarkers.mk none none := by
  decide!

/-- Claim C9 amended: when a non-null result is supplied AND there is
more than one sample (with equal-length finite stress and a finite yield
value in the result), the yield marker is the (strain, stress) pair whose
raw stress is closest to the result's yield strength and the tensile
marker is the pair at the first index of maximal raw stress; when the
result is null, both markers are omitted. -/
theorem C9_amended (strain : List PyFloat) (tq : List ℚ)
    (r : PropertyResult) (yv : ℚ) (hlen : strain.length = tq.length)
    (h1 : 1 < strain.length) (hy : r.yieldStrength.value = fin yv) :
    (∃ j, j < tq.length ∧
      (∀ k, k < tq.length → |tq.getD j 0 - yv| ≤ |tq.getD k 0 - yv|) ∧
      (chartMarkers strain (tq.map fin) (some r)).yieldMarker =
        some (strain.getD j nan, fin (tq.getD j 0))) ∧
    (∃ m, m < tq.length ∧
      (∀ k, k < tq.length → tq.getD k 0 ≤ tq.getD m 0) ∧
      (chartMarkers strain (tq.map fin) (some r)).tensileMarker =
        some (strain.getD m nan, fin (tq.getD m 0))) ∧
    chartMarkers strain (tq.map fin) none = ChartMarkers.mk none none := by
  have htne : tq ≠ [] := by
    intro hc
    rw [hc] at hlen
    simp only [List.length_nil] at hlen
    omega
  obtain ⟨t0, ts, htcons⟩ := List.exists_cons_of_ne_nil htne
  have hemp : (tq.map fin).isEmpty = false := by
    rw [htcons]
    rfl
  have hdiff : (tq.map fin).map (fun s => PyFloat.abs (sub s (fin yv))) =
      (tq.map (fun q => |q - yv|)).map fin := by
    rw [List.map_map, List.map_map]
    refine List.map_congr_left ?_
    intro q hq
    show PyFloat.abs (sub (fin q) (fin yv)) = _
    rw [sub_fin_fin, abs_fin]
    rfl
  have hdlen : (tq.map (fun q => |q - yv|)).length = tq.length := by
    simp
  have hdne : tq.map (fun q => |q - yv|) ≠ [] := by
    intro hc
    have hz : tq.length = 0 := by
      rw [← hdlen, hc]
      rfl
    omega
  obtain ⟨d0, ds, hdcons⟩ := List.exists_cons_of_ne_nil hdne
  have hjb : argminQ (tq.map (fun q => |q - yv|)) < tq.length := by
    have h := (argminQ_spec d0 ds).1
    rw [← hdcons, hdlen] at h
    exact h
  have hjmin : ∀ k, k < tq.length →
      (tq.map (fun q => |q - yv|)).getD
        (argminQ (tq.map (fun q => |q - yv|))) 0 ≤
      (tq.map (fun q => |q - yv|)).getD k 0 := by
    intro k hk
    have h := (argminQ_spec d0 ds).2
    rw [← hdcons] at h
    exact h k (by rw [hdlen]; exact hk)
  have hmb : argmaxQ tq < tq.length := by
    have h := (argmaxQ_spec t0 ts).1
    rw [← htcons] at h
    exact h
  have hmmax : ∀ k, k < tq.length → tq.getD k 0 ≤ tq.getD (argmaxQ tq) 0 := by
    have h := (argmaxQ_spec t0 ts).2.1
    rw [← htcons] at h
    exact h
  have hcm : chartMarkers strain (tq.map fin) (some r) =
      ⟨some (strain.getD (argminQ (tq.map (fun q => |q - yv|))) nan,
          fin (tq.getD (argminQ (tq.map (fun q => |q - yv|))) 0)),
        some (strain.getD (argmaxQ tq) nan,
          fin (tq.getD (argmaxQ tq) 0))⟩ := by
    rw [chartMarkers, if_pos h1, hy, hdiff, hemp]
    rw [if_neg (by simp), npArgmin_map_fin, npArgmax_map_fin]
    rw [if_pos (by rw [hlen]; exact hjb), if_pos (by rw [hlen]; exact hmb)]
    rw [getD_map_fin tq nan hjb, getD_map_fin tq nan hmb]
  refine ⟨⟨argminQ (tq.map (fun q => |q - yv|)), hjb, ?_, by rw [hcm]⟩,
    ⟨argmaxQ tq, hmb, hmmax, by rw [hcm]⟩, rfl⟩
  intro k hk
  have h := hjmin k hk
  rw [getD_map _ tq 0 0 hjb, getD_map _ tq 0 0 hk] at h
  exact h

theorem C9_witness :
    1 < ([fin 0, fin (1/100)] : List PyFloat).length ∧
    ((∃ j, j < ([10, 20] : List ℚ).length ∧
      (∀ k, k < ([10, 20] : List ℚ).length →
        |([10, 20] : List ℚ).getD j 0 - 400| ≤
        |([10, 20] : List ℚ).getD k 0 - 400|) ∧
      (chartMarkers [fin 0, fin (1/100)] (([10, 20] : List ℚ).map fin)
        (some fallbackResult)).yieldMarker =
        some (([fin 0, fin (1/100)] : List PyFloat).getD j nan,
          fin (([10, 20] : List ℚ).getD j 0))) ∧
    (∃ m, m < ([10, 20] : List ℚ).length ∧
      (∀ k, k < ([10, 20] : List ℚ).length →
        ([10, 20] : List ℚ).getD k 0 ≤ ([10, 20] : List ℚ).getD m 0) ∧
      (chartMarkers [fin 0, fin (1/100)] (([10, 20] : List ℚ).map fin)
        (some fallbackResult)).tensileMarker =
        some (([fin 0, fin (1/100)] : List PyFloat).getD m nan,
          fin (([10, 20] : List ℚ).getD m 0))) ∧
    chartMarkers [fin 0, fin (1/100)] (([10, 20] : List ℚ).map fin) none =
      ChartMarkers.mk none none) :=
  ⟨by decide!, C9_amended [fin 0, fin (1/100)] [10, 20] fallbackResult 400
    (by decide!) (by decide!) (by decide!)⟩

end MaterialAnalyzer
